import Mathlib

/-!
Verification development for the scanmem match-set engine.

The definitions below are shallow embeddings of the C sources
(`handlers.c` and the target-memory header).  Flat trailing-array memory is
modelled with lists; machine addresses are `Nat`/`Int`; `sizeof` constants
are passed as explicit parameters.  Functions of this repository whose
definitions are not part of the given sources (they live in `value.h` /
`targetmem.c`) are modelled from the specification and say so in their doc
comments.
-/

namespace Scanmem

/-! ## Definitions -/

/-- Modelled from the spec: `match_flags` (from the missing `value.h`) — the
per-byte set of still-viable width interpretations plus the two aggregate
lengths (byte-array and string). -/
structure match_flags where
  u64b : Bool
  s64b : Bool
  f64b : Bool
  u32b : Bool
  s32b : Bool
  f32b : Bool
  u16b : Bool
  s16b : Bool
  u8b : Bool
  s8b : Bool
  bytearray_length : Nat
  string_length : Nat
deriving DecidableEq

/-- The all-clear flag set (what `memset 0` / `zero_match_flags` produces). -/
def zeroed_flags : match_flags :=
  ⟨false, false, false, false, false, false, false, false, false, false, 0, 0⟩

/-- `old_value_and_match_info` (targetmem header): one target byte together
with its match state. -/
structure old_value_and_match_info where
  old_value : Nat
  match_info : match_flags
deriving DecidableEq

/-- A zero entry: `old_value` 0 and all-zero `match_info` (the padding value
written by the `memset` in `add_element`). -/
def zero_entry : old_value_and_match_info := ⟨0, zeroed_flags⟩

instance : Inhabited old_value_and_match_info := ⟨zero_entry⟩

/-- Modelled from the spec: `flags_to_max_width_in_bytes` (missing
`value.h`) — the largest still-viable width; a byte with no viable widths
(result 0) is not a real match. -/
def flags_to_max_width_in_bytes (f : match_flags) : Nat :=
  max (max f.bytearray_length f.string_length)
    (if f.u64b || f.s64b || f.f64b then 8
     else if f.u32b || f.s32b || f.f32b then 4
     else if f.u16b || f.s16b then 2
     else if f.u8b || f.s8b then 1
     else 0)

/-- `matches_and_old_values_swath` (targetmem header): the target address of
entry 0 and the inline run of entries.  `number_of_bytes` is the length of
the run. -/
structure matches_and_old_values_swath where
  first_byte_in_child : Nat
  data : List old_value_and_match_info
deriving DecidableEq

instance : Inhabited matches_and_old_values_swath := ⟨⟨0, []⟩⟩

def matches_and_old_values_swath.number_of_bytes
    (s : matches_and_old_values_swath) : Nat :=
  s.data.length

/-- `remote_address_of_last_element` (targetmem header):
`first_byte_in_child + (number_of_bytes - 1)`. -/
def remote_address_of_last_element (s : matches_and_old_values_swath) : Nat :=
  s.first_byte_in_child + (s.number_of_bytes - 1)

/-- Result of `add_element`: either the element went into the given swath
(possibly after zero padding) or a fresh swath was started. -/
inductive AddElementResult where
  | same (s : matches_and_old_values_swath)
  | fresh (s : matches_and_old_values_swath)
deriving DecidableEq

/-- `add_element` (targetmem header, lines 381-449), at the level of logical
swath contents; store growth is modelled separately by
`allocate_enough_to_reach` and assumed successful here.  `headerSize` and
`entrySize` stand for `sizeof(matches_and_old_values_swath)` and
`sizeof(old_value_and_match_info)`.  The identifiers `needed_size` /
`local_address_excess` of the C text are the declared `needed_sz` /
`local_addr_excess` (the spec records them as typos). -/
def add_element (headerSize entrySize : Nat)
    (swath : matches_and_old_values_swath) (remote_addr : Nat)
    (new_elem : old_value_and_match_info) : AddElementResult :=
  if swath.number_of_bytes = 0 then
    .same { first_byte_in_child := remote_addr, data := [new_elem] }
  else
    let local_idx_excess := remote_addr - remote_address_of_last_element swath
    let local_addr_excess := local_idx_excess * entrySize
    let needed_sz := headerSize + entrySize
    if needed_sz ≤ local_addr_excess then
      .fresh { first_byte_in_child := remote_addr, data := [new_elem] }
    else
      .same { swath with
              data := swath.data ++
                List.replicate (local_idx_excess - 1) zero_entry ++ [new_elem] }

/-- A concrete one-entry swath used in witnesses: covers address 100 only. -/
def c1_swath : matches_and_old_values_swath := ⟨100, [⟨7, zeroed_flags⟩]⟩

/-- `matches_and_old_values_array` (targetmem header): allocation bookkeeping
plus the sequence of swaths held in the heap block. -/
structure matches_and_old_values_array where
  bytes_allocated : Nat
  max_needed_bytes : Nat
  swaths : List matches_and_old_values_swath
deriving DecidableEq

/-- The `while (bytes_to_alloc < bytes_needed) bytes_to_alloc *= 2;` loop of
`allocate_enough_to_reach`, run with explicit fuel (the C loop terminates for
any positive start value, and fuel `bytes_needed` then suffices, see
`doubling_fuel_spec`). -/
def doubling_fuel : Nat → Nat → Nat → Nat
  | 0, bytes_to_alloc, _ => bytes_to_alloc
  | fuel + 1, bytes_to_alloc, bytes_needed =>
      if bytes_to_alloc < bytes_needed then
        doubling_fuel fuel (bytes_to_alloc * 2) bytes_needed
      else bytes_to_alloc

/-- The doubled allocation size before clamping. -/
def grown_bytes (bytes_allocated bytes_needed : Nat) : Nat :=
  doubling_fuel bytes_needed bytes_allocated bytes_needed

/-- `allocate_enough_to_reach` (targetmem header, lines 329-375).  Addresses
are integers; `base` is the address the store currently lives at and
`realloc_to` is the outcome of `realloc` (`none` = failure, `some b` = the
block now lives at `b`).  On success the function returns the store, its new
base address, and the corrected caller cursor. -/
def allocate_enough_to_reach (arr : matches_and_old_values_array) (base : Int)
    (last_byte_to_reach_plus_one : Int) (swath_ptr : Option Int)
    (realloc_to : Option Int) :
    Option (matches_and_old_values_array × Int × Option Int) :=
  let bytes_needed : Nat := (last_byte_to_reach_plus_one - base).toNat
  if bytes_needed ≤ arr.bytes_allocated then
    some (arr, base, swath_ptr)
  else
    let b := grown_bytes arr.bytes_allocated bytes_needed
    let bytes_to_alloc := if arr.max_needed_bytes < b then arr.max_needed_bytes else b
    match realloc_to with
    | none => none
    | some new_base =>
        some ({ arr with bytes_allocated := bytes_to_alloc }, new_base,
              swath_ptr.map (fun p => p + (new_base - base)))

/-- A concrete empty store used in witnesses: 16 bytes allocated, 100 max. -/
def c2_arr : matches_and_old_values_array := ⟨16, 100, []⟩

/-- A concrete one-swath store used in witnesses. -/
def c10_arr : matches_and_old_values_array := ⟨16, 100, [c1_swath]⟩

/-- The width-capability flag set of `value_t` (from the missing `value.h`);
only the fields touched by `data_to_val_aux` are modelled. -/
structure value_flags where
  u64b : Bool
  s64b : Bool
  f64b : Bool
  u32b : Bool
  s32b : Bool
  f32b : Bool
  u16b : Bool
  s16b : Bool
  u8b : Bool
  s8b : Bool
deriving DecidableEq

/-- `value_t`: the flag set plus `int64_value`, modelled as its eight bytes
in memory order (byte offset `i` of the 64-bit value is position `i`). -/
structure value_t where
  flags : value_flags
  int64_bytes : List Nat
deriving DecidableEq

/-- `zero_value`: all flags clear, `int64_value` zero. -/
def zero_value : value_t :=
  ⟨⟨false, false, false, false, false, false, false, false, false, false⟩,
   List.replicate 8 0⟩

/-- `data_to_val_aux` (targetmem header, lines 456-481): clamp
`max_bytes = swath_len - idx` to 8, set the width flags by comparing it to
8, 4, 2 and 1, then copy `max_bytes` `old_value` bytes starting at `idx`
into the bytes of `int64_value`, byte `i` to offset `i`; the remaining
offsets keep the zero written by `zero_value`. -/
def data_to_val_aux (data : List old_value_and_match_info)
    (idx swath_len : Nat) : value_t :=
  let max_bytes0 : Int := (swath_len : Int) - (idx : Int)
  let max_bytes : Int := if 8 < max_bytes0 then 8 else max_bytes0
  { flags := ⟨decide (8 ≤ max_bytes), decide (8 ≤ max_bytes),
              decide (8 ≤ max_bytes),
              decide (4 ≤ max_bytes), decide (4 ≤ max_bytes),
              decide (4 ≤ max_bytes),
              decide (2 ≤ max_bytes), decide (2 ≤ max_bytes),
              decide (1 ≤ max_bytes), decide (1 ≤ max_bytes)⟩,
    int64_bytes :=
      (List.range max_bytes.toNat).map
        (fun i => (data.getD (idx + i) zero_entry).old_value) ++
      List.replicate (8 - max_bytes.toNat) 0 }

/-- `data_to_val` (targetmem header, lines 483-487). -/
def data_to_val (swath : matches_and_old_values_swath) (idx : Nat) : value_t :=
  data_to_val_aux swath.data idx swath.number_of_bytes

/-- A concrete ten-entry swath used in the C9 witness; entry `i` holds
`old_value` `i + 1`. -/
def c9_swath : matches_and_old_values_swath :=
  ⟨4096, (List.range 10).map (fun i => ⟨i + 1, zeroed_flags⟩)⟩

/-- `scan_match_type_t` (from `scanmem.h`, as used by `handlers.c`). -/
inductive scan_match_type where
  | MATCHANY
  | MATCHEQUALTO
  | MATCHNOTEQUALTO
  | MATCHGREATERTHAN
  | MATCHLESSTHAN
  | MATCHRANGE
  | MATCHNOTCHANGED
  | MATCHCHANGED
  | MATCHINCREASED
  | MATCHDECREASED
  | MATCHINCREASEDBY
  | MATCHDECREASEDBY
deriving DecidableEq

/-- What a run of `handler__decinc` does: fail with an error, start a first
region scan (`sm_searchregions`), or narrow the existing matches
(`sm_checkmatches`). -/
inductive DecincOutcome where
  | failure
  | first_scan (m : scan_match_type)
  | next_scan (m : scan_match_type)
deriving DecidableEq

/-- `handler__decinc` (handlers.c, lines 807-877), up to the point where the
scan is dispatched.  `argv0` is the command word, `argc` the token count,
`parse_ok` the outcome of `parse_uservalue_number` on the operand (external
user-value parsing), `has_matches` whether `vars->matches` is non-null.  The
success of the dispatched scan itself is outside this model. -/
def handler__decinc (argv0 : String) (argc : Nat) (parse_ok : Bool)
    (has_matches : Bool) : DecincOutcome :=
  if 2 < argc then .failure
  else if argc ≠ 1 ∧ parse_ok = false then .failure
  else
    match (if argv0 = "=" then
             some (if argc = 1 then scan_match_type.MATCHNOTCHANGED
                   else .MATCHEQUALTO)
           else if argv0 = "!=" then
             some (if argc = 1 then scan_match_type.MATCHCHANGED
                   else .MATCHNOTEQUALTO)
           else if argv0 = "<" then
             some (if argc = 1 then scan_match_type.MATCHDECREASED
                   else .MATCHLESSTHAN)
           else if argv0 = ">" then
             some (if argc = 1 then scan_match_type.MATCHINCREASED
                   else .MATCHGREATERTHAN)
           else if argv0 = "+" then
             some (if argc = 1 then scan_match_type.MATCHINCREASED
                   else .MATCHINCREASEDBY)
           else if argv0 = "-" then
             some (if argc = 1 then scan_match_type.MATCHDECREASED
                   else .MATCHDECREASEDBY)
           else none) with
    | none => .failure
    | some m =>
        if has_matches then .next_scan m
        else if m = .MATCHNOTCHANGED ∨ m = .MATCHCHANGED ∨
                m = .MATCHDECREASED ∨ m = .MATCHINCREASED ∨
                m = .MATCHDECREASEDBY ∨ m = .MATCHINCREASEDBY then .failure
        else .first_scan m

/-- Indices of the real matches inside one swath's entry run (entries whose
max width is positive). -/
def flagged_indices (data : List old_value_and_match_info) : List Nat :=
  (List.range data.length).filter
    (fun i => 0 < flags_to_max_width_in_bytes (data.getD i zero_entry).match_info)

/-- All match locations of the store, in swath order then entry order,
as (swath index, entry index) pairs; `si` is the index of the first swath. -/
def match_locations :
    List matches_and_old_values_swath → Nat → List (Nat × Nat)
  | [], _ => []
  | s :: rest, si =>
      (flagged_indices s.data).map (fun ei => (si, ei)) ++
      match_locations rest (si + 1)

/-- Modelled from the spec: `nth_match` (missing `targetmem.c`) walks the
swaths in order, counting entries with positive max width, and returns the
location of the n-th such entry (0-indexed), or none when exhausted. -/
def nth_match (store : List matches_and_old_values_swath) (n : Nat) :
    Option (Nat × Nat) :=
  (match_locations store 0).get? n

/-- Modelled from the spec: `zero_match_flags` (missing `value.h`) clears
every flag of the entry's `match_info`; the stale `old_value` stays. -/
def zero_match_flags (e : old_value_and_match_info) : old_value_and_match_info :=
  { e with match_info := zeroed_flags }

/-- The session state that `handler__delete` touches. -/
structure DeleteState where
  matches_list : List matches_and_old_values_swath
  num_matches : Int
deriving DecidableEq

/-- `handler__delete` (handlers.c, lines 490-527).  `argc_ok` is the
`argc == 2` test; `parsed_id` is the `strtoul` outcome on `argv[1]`
(`none` = unparsable, external C-library parsing).  Returns the command's
success flag and the resulting session state. -/
def handler__delete (st : DeleteState) (argc_ok : Bool)
    (parsed_id : Option Nat) : Bool × DeleteState :=
  if argc_ok = false then (false, st)
  else
    match parsed_id with
    | none => (false, st)
    | some id =>
        match nth_match st.matches_list id with
        | some (si, ei) =>
            let s := st.matches_list.getD si default
            (true,
             { matches_list :=
                 st.matches_list.set si
                   { s with
                     data := s.data.set ei
                       (zero_match_flags (s.data.getD ei zero_entry)) },
               num_matches := st.num_matches - 1 })
        | none => (false, st)

/-- A fully-viable flag set (every width viable), for witnesses. -/
def full_flags : match_flags :=
  ⟨true, true, true, true, true, true, true, true, true, true, 0, 0⟩

/-- A concrete two-swath store with two real matches, for witnesses:
swath at 100 holds a match at entry 1, swath at 200 one at entry 0. -/
def c5_store : List matches_and_old_values_swath :=
  [⟨100, [⟨1, zeroed_flags⟩, ⟨2, full_flags⟩]⟩,
   ⟨200, [⟨3, full_flags⟩]⟩]

/-- The delete-state for the C5 witness. -/
def c5_state : DeleteState := ⟨c5_store, 2⟩

/-- `region_t` (from the missing `maps.h`); only the fields the dregion
sweep needs. -/
structure region_t where
  id : Nat
  start : Nat
  size : Nat
deriving DecidableEq

instance : Inhabited region_t := ⟨⟨0, 0, 0⟩⟩

/-- An address lies inside a region (`start ≤ a < start + size`, the test
used when attributing matches to regions). -/
def in_region (r : region_t) (a : Nat) : Bool :=
  decide (r.start ≤ a ∧ a < r.start + r.size)

/-- Modelled from the spec: the per-swath sweep of `delete_by_region`
(missing `targetmem.c`) — walk the entries with their remote addresses and
clear the flags of every entry on the wrong side of the region boundary per
`keep_inside`. -/
def clear_entries (r : region_t) (keep_inside : Bool) :
    Nat → List old_value_and_match_info → List old_value_and_match_info
  | _, [] => []
  | addr, e :: rest =>
      (if in_region r addr = keep_inside then e else zero_match_flags e) ::
      clear_entries r keep_inside (addr + 1) rest

/-- Count of real matches in the store (entries with positive max width). -/
def count_matches (store : List matches_and_old_values_swath) : Nat :=
  (store.map (fun s => (flagged_indices s.data).length)).sum

/-- Modelled from the spec: `delete_by_region` (missing `targetmem.c`)
clears the flags of all entries whose remote address falls inside
(`keep_inside = false`) or outside (`keep_inside = true`) the region, and
updates the matched count through the pointer argument. -/
def delete_by_region (store : List matches_and_old_values_swath) (num : Int)
    (r : region_t) (keep_inside : Bool) :
    List matches_and_old_values_swath × Int :=
  let store' := store.map
    (fun s => { s with
                data := clear_entries r keep_inside s.first_byte_in_child s.data })
  (store', num - ((count_matches store : Int) - (count_matches store' : Int)))

/-- First region of the list whose `id` matches (the `while (np)` search of
`handler__dregion`). -/
def find_region : List region_t → Nat → Option region_t
  | [], _ => none
  | r :: rest, id => if r.id = id then some r else find_region rest id

/-- Remove the first region whose `id` matches (`l_remove`). -/
def remove_region : List region_t → Nat → List region_t
  | [], _ => []
  | r :: rest, id => if r.id = id then rest else r :: remove_region rest id

/-- The per-id loop of `handler__dregion` in the inverted case: each listed
region is moved from the regions list to the tail of the `keep` list;
an id with no matching region aborts with an error. -/
def dregion_invert_loop :
    List Nat → List region_t → List region_t →
    Option (List region_t × List region_t)
  | [], regions, keep => some (regions, keep)
  | id :: rest, regions, keep =>
      match find_region regions id with
      | none => none
      | some r => dregion_invert_loop rest (remove_region regions id) (keep ++ [r])

/-- `handler__dregion` (handlers.c, lines 610-768), inverted (`!`) path:
parse the ids, move each listed region to the `keep` list, then — when any
matches exist — sweep the match store with `delete_by_region` against the
head of the `keep` list with `keep_inside = true`, and install `keep` as the
new regions list.  Returns none on the error paths. -/
def handler__dregion_invert (regions : List region_t)
    (store : List matches_and_old_values_swath) (num : Int)
    (ids : List Nat) :
    Option (List region_t × List matches_and_old_values_swath × Int) :=
  if ids.isEmpty then none
  else
    match dregion_invert_loop ids regions [] with
    | none => none
    | some (_, keep) =>
        if 0 < num then
          let swept := delete_by_region store num (keep.headD default) true
          some (keep, swept.1, swept.2)
        else some (keep, store, num)

/-- Concrete regions for the C6 witness: ids 1, 2, 3 covering consecutive
ranges of 10 bytes. -/
def c6_regions : List region_t := [⟨1, 0, 10⟩, ⟨2, 10, 10⟩, ⟨3, 20, 10⟩]

/-- Concrete store for the C6 witness: one swath inside region 1 and one
inside region 2, each with one real match. -/
def c6_store : List matches_and_old_values_swath :=
  [⟨4, [⟨9, full_flags⟩]⟩, ⟨15, [⟨5, full_flags⟩]⟩]

/-- The operations a `handler__watch` loop iteration can perform, in program
order; `check_cancellation` stands for a polled cancellation test. -/
inductive WatchAction where
  | check_cancellation
  | attach
  | peek_data
  | compare_and_report
  | detach
  | sleep_one
deriving DecidableEq

/-- The body of the `while (true)` loop of `handler__watch` (handlers.c,
lines 1261-1296), as the sequence of operations it performs each iteration:
`sm_attach`, `sm_peekdata`, the `MATCHCHANGED` comparison with its optional
report, `sm_detach`, `sleep(1)`.  Cancellation is reachable only through the
asynchronous `longjmp` of `INTERRUPTABLE()` set up before the loop; no
polled check appears in the body. -/
def watch_loop_body : List WatchAction :=
  [.attach, .peek_data, .compare_and_report, .detach, .sleep_one]

/-- Output tokens of the screen branch of `handler__dump`: a leading line
address, one byte printed with `"%02X "` (the byte is shown after the
`(unsigned char)` cast, i.e. mod 256), a three-space filler of the ASCII
panel, one ASCII-panel character, or a line break. -/
inductive DumpTok where
  | addr (a : Nat)
  | hex (b : Nat)
  | pad
  | ascii (c : Char)
  | newline
deriving DecidableEq

/-- The ASCII-panel rendering of a raw byte read into a `char`:
`isprint` (printable ASCII 0x20..0x7e; bytes ≥ 0x80 become negative chars
and are not printable) prints the character itself, anything else '.'. -/
def printable_or_dot (b : Nat) : Char :=
  if 32 ≤ b ∧ b ≤ 126 then Char.ofNat b else '.'

/-- The print loops of `handler__dump` (handlers.c, lines 1388-1427) for a
dump to the screen, starting at byte offset `i`: the
`for (i = 0; i + 16 < len; i += 16)` main loop emits full 16-byte lines,
then the `if (i < len)` remainder emits the final line, padding the ASCII
panel with fillers up to column 16.  Each line starts with the address
`addr + i` unless the session is in backend mode, and carries the ASCII
panel only when `dump_with_ascii` is set. -/
def dump_print (backend with_ascii : Bool) (addr : Nat) (buf : List Nat)
    (i : Nat) : List DumpTok :=
  if h16 : i + 16 < buf.length then
    (if backend then [] else [DumpTok.addr (addr + i)]) ++
    (List.range 16).map (fun j => DumpTok.hex (buf.getD (i + j) 0 % 256)) ++
    (if with_ascii then
       (List.range 16).map
         (fun j => DumpTok.ascii (printable_or_dot (buf.getD (i + j) 0)))
     else []) ++
    [DumpTok.newline] ++
    dump_print backend with_ascii addr buf (i + 16)
  else if i < buf.length then
    (if backend then [] else [DumpTok.addr (addr + i)]) ++
    (List.range (buf.length - i)).map
      (fun j => DumpTok.hex (buf.getD (i + j) 0 % 256)) ++
    (if with_ascii then
       List.replicate ((16 - buf.length % 16) % 16) DumpTok.pad ++
       (List.range (buf.length - i)).map
         (fun j => DumpTok.ascii (printable_or_dot (buf.getD (i + j) 0)))
     else []) ++
    [DumpTok.newline]
  else []
termination_by buf.length - i
decreasing_by
  simp_wf
  omega

/-- The screen output of a successful `dump addr len` (no file argument):
run the print loops from offset 0. -/
def handler__dump_screen (backend with_ascii : Bool) (addr : Nat)
    (buf : List Nat) : List DumpTok :=
  dump_print backend with_ascii addr buf 0

/-- The buffer split into runs of 16 bytes (the last run may be shorter). -/
def chunks16 (l : List Nat) : List (List Nat) :=
  if h : l = [] then [] else l.take 16 :: chunks16 (l.drop 16)
termination_by l.length
decreasing_by
  simp_wf
  have hpos : 0 < l.length := List.length_pos.mpr h
  omega

/-- One dump line per the spec's format: an optional leading address
(absent in backend mode), the bytes of the chunk in `"%02X "` hex, and —
only with `dump_with_ascii` — the printable-ASCII panel (aligned with
fillers when the chunk is short), then the line break. -/
def dump_line (backend with_ascii : Bool) (line_addr : Nat)
    (chunk : List Nat) : List DumpTok :=
  (if backend then [] else [DumpTok.addr line_addr]) ++
  chunk.map (fun b => DumpTok.hex (b % 256)) ++
  (if with_ascii then
     List.replicate ((16 - chunk.length % 16) % 16) DumpTok.pad ++
     chunk.map (fun b => DumpTok.ascii (printable_or_dot b))
   else []) ++
  [DumpTok.newline]

/-- The spec-side dump: one `dump_line` per 16-byte chunk, line addresses
advancing by 16. -/
def dump_lines_from (backend with_ascii : Bool) :
    Nat → List (List Nat) → List DumpTok
  | _, [] => []
  | line_addr, chunk :: rest =>
      dump_line backend with_ascii line_addr chunk ++
      dump_lines_from backend with_ascii (line_addr + 16) rest

/-! ## Theorems -/

/-- C1 counterexample: with `sizeof(swath header) = 16`, `sizeof(entry) = 4`,
a swath covering only address 100 and `remote_addr = 102`, the claim's
`gap = remote_addr - (first_byte_in_child + number_of_bytes)` is 1, so the
claim predicts padding with `gap - 1 = 0` zero entries and `number_of_bytes`
rising by `gap = 1` (to 2).  The code instead measures the excess from the
last covered address (= 2), pads with one zero entry and raises
`number_of_bytes` by 2 (to 3). -/
theorem add_element_claim_gap_counterexample :
    add_element 16 4 c1_swath 102 zero_entry =
      .same ⟨100, [⟨7, zeroed_flags⟩, zero_entry, zero_entry]⟩ ∧
    102 - (c1_swath.first_byte_in_child + c1_swath.number_of_bytes) = 1 ∧
    ¬ add_element 16 4 c1_swath 102 zero_entry =
        .same ⟨100, c1_swath.data ++
          List.replicate
            (102 - (c1_swath.first_byte_in_child + c1_swath.number_of_bytes) - 1)
            zero_entry ++ [zero_entry]⟩ := by
  decide

/-- C1 (amended): on a non-empty swath with `remote_addr` strictly beyond the
last covered address, let
`gap = remote_addr - (first_byte_in_child + number_of_bytes - 1)` (distance
from the last covered address) and `threshold = headerSize + entrySize`.
If `gap * entrySize ≥ threshold` a new swath is started at `remote_addr`
(so at the boundary `gap * entrySize = threshold` the new-swath branch is
taken); otherwise the swath is padded with `gap - 1` zero entries and the
entry appended, and `number_of_bytes` grows by exactly `gap`. -/
theorem add_element_branch_spec (headerSize entrySize : Nat)
    (swath : matches_and_old_values_swath) (remote_addr : Nat)
    (new_elem : old_value_and_match_info)
    (hne : swath.number_of_bytes ≠ 0)
    (hgt : remote_address_of_last_element swath < remote_addr) :
    (headerSize + entrySize ≤
        (remote_addr - remote_address_of_last_element swath) * entrySize →
      add_element headerSize entrySize swath remote_addr new_elem =
        .fresh ⟨remote_addr, [new_elem]⟩) ∧
    ((remote_addr - remote_address_of_last_element swath) * entrySize <
        headerSize + entrySize →
      add_element headerSize entrySize swath remote_addr new_elem =
        .same ⟨swath.first_byte_in_child,
               swath.data ++
                 List.replicate
                   (remote_addr - remote_address_of_last_element swath - 1)
                   zero_entry ++ [new_elem]⟩ ∧
      (swath.data ++
         List.replicate
           (remote_addr - remote_address_of_last_element swath - 1)
           zero_entry ++ [new_elem]).length =
        swath.number_of_bytes +
          (remote_addr - remote_address_of_last_element swath)) := by
  have hkey : add_element headerSize entrySize swath remote_addr new_elem =
      if headerSize + entrySize ≤
          (remote_addr - remote_address_of_last_element swath) * entrySize then
        .fresh ⟨remote_addr, [new_elem]⟩
      else
        .same ⟨swath.first_byte_in_child,
               swath.data ++
                 List.replicate
                   (remote_addr - remote_address_of_last_element swath - 1)
                   zero_entry ++ [new_elem]⟩ := by
    unfold add_element
    simp only [if_neg hne]
  constructor
  · intro hle
    rw [hkey, if_pos hle]
  · intro hlt
    refine ⟨by rw [hkey, if_neg (Nat.not_le.mpr hlt)], ?_⟩
    have h1 : 1 ≤ remote_addr - remote_address_of_last_element swath := by
      omega
    simp only [List.length_append, List.length_replicate, List.length_cons,
      List.length_nil, matches_and_old_values_swath.number_of_bytes]
    omega

/-- Witness for C1's amended theorem at a concrete input (the padding branch
with `gap = 2`, sizes 16 and 4). -/
theorem add_element_branch_spec_witness :
    c1_swath.number_of_bytes ≠ 0 ∧
    remote_address_of_last_element c1_swath < 102 ∧
    ((16 + 4 ≤ (102 - remote_address_of_last_element c1_swath) * 4 →
      add_element 16 4 c1_swath 102 zero_entry = .fresh ⟨102, [zero_entry]⟩) ∧
    ((102 - remote_address_of_last_element c1_swath) * 4 < 16 + 4 →
      add_element 16 4 c1_swath 102 zero_entry =
        .same ⟨c1_swath.first_byte_in_child,
               c1_swath.data ++
                 List.replicate (102 - remote_address_of_last_element c1_swath - 1)
                   zero_entry ++ [zero_entry]⟩ ∧
      (c1_swath.data ++
         List.replicate (102 - remote_address_of_last_element c1_swath - 1)
           zero_entry ++ [zero_entry]).length =
        c1_swath.number_of_bytes +
          (102 - remote_address_of_last_element c1_swath))) :=
  ⟨by decide, by decide,
    add_element_branch_spec 16 4 c1_swath 102 zero_entry (by decide) (by decide)⟩

/-- The doubling loop, characterised: starting from a positive value with
sufficient fuel, the result is the first element of the doubling sequence
that reaches `bytes_needed`. -/
theorem doubling_fuel_spec (bytes_needed : Nat) :
    ∀ fuel start : Nat, 0 < start → bytes_needed ≤ start + fuel →
      ∃ k, doubling_fuel fuel start bytes_needed = start * 2 ^ k ∧
        bytes_needed ≤ start * 2 ^ k ∧
        ∀ j < k, start * 2 ^ j < bytes_needed := by
  intro fuel
  induction fuel with
  | zero =>
      intro start hpos hle
      refine ⟨0, by simp [doubling_fuel], by simpa using hle, by omega⟩
  | succ n ih =>
      intro start hpos hle
      by_cases hlt : start < bytes_needed
      · have hle' : bytes_needed ≤ start * 2 + n := by omega
        obtain ⟨k, hk, hk2, hk3⟩ := ih (start * 2) (by omega) hle'
        refine ⟨k + 1, ?_, ?_, ?_⟩
        · simp only [doubling_fuel, if_pos hlt]
          rw [hk]
          ring
        · calc bytes_needed ≤ start * 2 * 2 ^ k := hk2
            _ = start * 2 ^ (k + 1) := by ring
        · intro j hj
          cases j with
          | zero => simpa using hlt
          | succ j' =>
              have := hk3 j' (by omega)
              calc start * 2 ^ (j' + 1) = start * 2 * 2 ^ j' := by ring
                _ < bytes_needed := this
      · refine ⟨0, ?_, by simpa using Nat.not_lt.mp hlt, by omega⟩
        simp [doubling_fuel, hlt]

/-- C2: when the requested high-water mark exceeds `bytes_allocated`, the
grow routine doubles `bytes_allocated` until the request fits, clamps the
result to `max_needed_bytes` when doubling overshoots it, and returns a null
store when `realloc` fails (the input store value is untouched in that
case — the embedding is pure and only the `some` branch carries a modified
store). -/
theorem allocate_enough_to_reach_grow_spec (arr : matches_and_old_values_array)
    (base reach : Int) (cursor : Option Int)
    (h0 : 0 < arr.bytes_allocated)
    (h1 : arr.bytes_allocated < (reach - base).toNat)
    (h2 : (reach - base).toNat ≤ arr.max_needed_bytes) :
    allocate_enough_to_reach arr base reach cursor none = none ∧
    ∀ new_base : Int, ∃ k : Nat,
      allocate_enough_to_reach arr base reach cursor (some new_base) =
        some ({ arr with
                bytes_allocated :=
                  min (arr.bytes_allocated * 2 ^ k) arr.max_needed_bytes },
              new_base, cursor.map (fun p => p + (new_base - base))) ∧
      (reach - base).toNat ≤
        min (arr.bytes_allocated * 2 ^ k) arr.max_needed_bytes ∧
      ∀ j < k, arr.bytes_allocated * 2 ^ j < (reach - base).toNat := by
  have hnot : ¬ (reach - base).toNat ≤ arr.bytes_allocated := by omega
  obtain ⟨k, hk, hk2, hk3⟩ :=
    doubling_fuel_spec ((reach - base).toNat) ((reach - base).toNat)
      arr.bytes_allocated h0 (by omega)
  have hgrown : grown_bytes arr.bytes_allocated ((reach - base).toNat) =
      arr.bytes_allocated * 2 ^ k := hk
  constructor
  · unfold allocate_enough_to_reach
    simp [hnot]
  · intro new_base
    refine ⟨k, ?_, ?_, hk3⟩
    · unfold allocate_enough_to_reach
      simp only [if_neg hnot, hgrown]
      by_cases hclamp : arr.max_needed_bytes < arr.bytes_allocated * 2 ^ k
      · rw [if_pos hclamp]
        have hmin : min (arr.bytes_allocated * 2 ^ k) arr.max_needed_bytes =
            arr.max_needed_bytes := by omega
        rw [hmin]
      · rw [if_neg hclamp]
        have hmin : min (arr.bytes_allocated * 2 ^ k) arr.max_needed_bytes =
            arr.bytes_allocated * 2 ^ k := by omega
        rw [hmin]
    · omega

/-- Witness for C2 at a concrete store: 16 bytes allocated, 100 max, growing
to reach 40 bytes. -/
theorem allocate_enough_to_reach_grow_spec_witness :
    0 < c2_arr.bytes_allocated ∧
    c2_arr.bytes_allocated < ((40 : Int) - 0).toNat ∧
    ((40 : Int) - 0).toNat ≤ c2_arr.max_needed_bytes ∧
    (allocate_enough_to_reach c2_arr 0 40 none none = none ∧
     ∀ new_base : Int, ∃ k : Nat,
       allocate_enough_to_reach c2_arr 0 40 none (some new_base) =
         some ({ c2_arr with
                 bytes_allocated :=
                   min (c2_arr.bytes_allocated * 2 ^ k) c2_arr.max_needed_bytes },
               new_base, Option.map (fun p => p + (new_base - 0)) none) ∧
       ((40 : Int) - 0).toNat ≤
         min (c2_arr.bytes_allocated * 2 ^ k) c2_arr.max_needed_bytes ∧
       ∀ j < k, c2_arr.bytes_allocated * 2 ^ j < ((40 : Int) - 0).toNat) :=
  ⟨by decide, by decide, by decide,
    allocate_enough_to_reach_grow_spec c2_arr 0 40 none
      (by decide) (by decide) (by decide)⟩

/-- C3: whenever growth relocates the store, a non-null caller cursor is
moved by exactly the byte delta between the new and old base addresses, so
its offset into the store — and hence the swath contents it designates — is
unchanged; the swath contents themselves are preserved by the reallocation. -/
theorem allocate_enough_to_reach_cursor_delta (arr : matches_and_old_values_array)
    (base reach : Int) (c new_base : Int)
    (h1 : arr.bytes_allocated < (reach - base).toNat)
    (_hmoved : new_base ≠ base) :
    ∃ arr', allocate_enough_to_reach arr base reach (some c) (some new_base) =
        some (arr', new_base, some (c + (new_base - base))) ∧
      (c + (new_base - base)) - new_base = c - base ∧
      arr'.swaths = arr.swaths := by
  have hnot : ¬ (reach - base).toNat ≤ arr.bytes_allocated := by omega
  refine ⟨{ arr with bytes_allocated :=
      if arr.max_needed_bytes <
          grown_bytes arr.bytes_allocated ((reach - base).toNat) then
        arr.max_needed_bytes
      else grown_bytes arr.bytes_allocated ((reach - base).toNat) },
    ?_, by ring, rfl⟩
  unfold allocate_enough_to_reach
  simp [hnot]

/-- Witness for C3 at a concrete relocation from base 0 to base 1000. -/
theorem allocate_enough_to_reach_cursor_delta_witness :
    c2_arr.bytes_allocated < ((40 : Int) - 0).toNat ∧
    (1000 : Int) ≠ 0 ∧
    ∃ arr', allocate_enough_to_reach c2_arr 0 40 (some 16) (some 1000) =
        some (arr', 1000, some (16 + (1000 - 0))) ∧
      (16 + ((1000 : Int) - 0)) - 1000 = 16 - 0 ∧
      arr'.swaths = c2_arr.swaths :=
  ⟨by decide, by decide,
    allocate_enough_to_reach_cursor_delta c2_arr 0 40 16 1000
      (by decide) (by decide)⟩

/-- C10: when the byte requirement already fits in `bytes_allocated`, the
grow routine returns the store pointer unchanged, performs no reallocation,
and leaves the allocation size, the swath contents and the caller cursor
exactly as they were. -/
theorem allocate_enough_to_reach_noop (arr : matches_and_old_values_array)
    (base reach : Int) (cursor : Option Int) (realloc_to : Option Int)
    (h : (reach - base).toNat ≤ arr.bytes_allocated) :
    allocate_enough_to_reach arr base reach cursor realloc_to =
      some (arr, base, cursor) := by
  unfold allocate_enough_to_reach
  simp [h]

/-- Witness for C10 at a concrete store whose allocation already covers the
requested reach. -/
theorem allocate_enough_to_reach_noop_witness :
    ((10 : Int) - 0).toNat ≤ c10_arr.bytes_allocated ∧
    allocate_enough_to_reach c10_arr 0 10 (some 16) (some 1000) =
      some (c10_arr, 0, some 16) :=
  ⟨by decide,
    allocate_enough_to_reach_noop c10_arr 0 10 (some 16) (some 1000) (by decide)⟩

/-- Clamping to 8 does not change a `≥ 8` test. -/
theorem decide_clamp8 (rem : Nat) :
    decide ((8 : Int) ≤ if (8 : Int) < (rem : Int) then (8 : Int) else (rem : Int)) =
      decide (8 ≤ rem) := by
  rw [decide_eq_decide]
  split_ifs <;> omega

/-- Clamping to 8 does not change a `≥ 4` test. -/
theorem decide_clamp4 (rem : Nat) :
    decide ((4 : Int) ≤ if (8 : Int) < (rem : Int) then (8 : Int) else (rem : Int)) =
      decide (4 ≤ rem) := by
  rw [decide_eq_decide]
  split_ifs <;> omega

/-- Clamping to 8 does not change a `≥ 2` test. -/
theorem decide_clamp2 (rem : Nat) :
    decide ((2 : Int) ≤ if (8 : Int) < (rem : Int) then (8 : Int) else (rem : Int)) =
      decide (2 ≤ rem) := by
  rw [decide_eq_decide]
  split_ifs <;> omega

/-- Clamping to 8 does not change a `≥ 1` test. -/
theorem decide_clamp1 (rem : Nat) :
    decide ((1 : Int) ≤ if (8 : Int) < (rem : Int) then (8 : Int) else (rem : Int)) =
      decide (1 ≤ rem) := by
  rw [decide_eq_decide]
  split_ifs <;> omega

/-- The clamped byte count, as a natural number, is `min 8 rem`. -/
theorem clamp_toNat (rem : Nat) :
    (if (8 : Int) < (rem : Int) then (8 : Int) else (rem : Int)).toNat =
      min 8 rem := by
  split_ifs <;> omega

/-- C9: for `0 ≤ idx < number_of_bytes`, `data_to_val` sets the width-`w`
flags exactly when `number_of_bytes - idx ≥ w` (`w ∈ {1,2,4,8}`; the float
flags exist only for widths 4 and 8), and assembles the integer payload from
`min 8 (number_of_bytes - idx)` consecutive `old_value` bytes starting at
`idx`, byte `i` landing at byte offset `i` of the 64-bit value, the rest
staying zero. -/
theorem data_to_val_spec (swath : matches_and_old_values_swath) (idx : Nat)
    (h : idx < swath.number_of_bytes) :
    data_to_val swath idx =
      { flags := ⟨decide (8 ≤ swath.number_of_bytes - idx),
                  decide (8 ≤ swath.number_of_bytes - idx),
                  decide (8 ≤ swath.number_of_bytes - idx),
                  decide (4 ≤ swath.number_of_bytes - idx),
                  decide (4 ≤ swath.number_of_bytes - idx),
                  decide (4 ≤ swath.number_of_bytes - idx),
                  decide (2 ≤ swath.number_of_bytes - idx),
                  decide (2 ≤ swath.number_of_bytes - idx),
                  decide (1 ≤ swath.number_of_bytes - idx),
                  decide (1 ≤ swath.number_of_bytes - idx)⟩,
        int64_bytes :=
          (List.range (min 8 (swath.number_of_bytes - idx))).map
            (fun i => (swath.data.getD (idx + i) zero_entry).old_value) ++
          List.replicate (8 - min 8 (swath.number_of_bytes - idx)) 0 } := by
  unfold data_to_val data_to_val_aux
  have hcast : (swath.number_of_bytes : Int) - (idx : Int) =
      ((swath.number_of_bytes - idx : Nat) : Int) := by omega
  simp only [hcast, decide_clamp8, decide_clamp4, decide_clamp2, decide_clamp1,
    clamp_toNat]

/-- Witness for C9 at the concrete ten-entry swath, index 3 (seven bytes
remain, so the 64-bit flags are clear and the others set). -/
theorem data_to_val_spec_witness :
    3 < c9_swath.number_of_bytes ∧
    data_to_val c9_swath 3 =
      { flags := ⟨decide (8 ≤ c9_swath.number_of_bytes - 3),
                  decide (8 ≤ c9_swath.number_of_bytes - 3),
                  decide (8 ≤ c9_swath.number_of_bytes - 3),
                  decide (4 ≤ c9_swath.number_of_bytes - 3),
                  decide (4 ≤ c9_swath.number_of_bytes - 3),
                  decide (4 ≤ c9_swath.number_of_bytes - 3),
                  decide (2 ≤ c9_swath.number_of_bytes - 3),
                  decide (2 ≤ c9_swath.number_of_bytes - 3),
                  decide (1 ≤ c9_swath.number_of_bytes - 3),
                  decide (1 ≤ c9_swath.number_of_bytes - 3)⟩,
        int64_bytes :=
          (List.range (min 8 (c9_swath.number_of_bytes - 3))).map
            (fun i => (c9_swath.data.getD (3 + i) zero_entry).old_value) ++
          List.replicate (8 - min 8 (c9_swath.number_of_bytes - 3)) 0 } :=
  ⟨by decide, data_to_val_spec c9_swath 3 (by decide)⟩

/-- C4: with no match store, the shorthands that need an `old_value`
(`=`, `!=`, `<`, `>`, `+`, `-` without operand and `+ N`, `- N`) fail with
an error and start no scan, while `= N`, `!= N`, `> N`, `< N` proceed to a
first region scan with the corresponding match type. -/
theorem handler__decinc_first_scan_spec :
    handler__decinc "=" 1 true false = .failure ∧
    handler__decinc "!=" 1 true false = .failure ∧
    handler__decinc "<" 1 true false = .failure ∧
    handler__decinc ">" 1 true false = .failure ∧
    handler__decinc "+" 1 true false = .failure ∧
    handler__decinc "-" 1 true false = .failure ∧
    handler__decinc "+" 2 true false = .failure ∧
    handler__decinc "-" 2 true false = .failure ∧
    handler__decinc "=" 2 true false = .first_scan .MATCHEQUALTO ∧
    handler__decinc "!=" 2 true false = .first_scan .MATCHNOTEQUALTO ∧
    handler__decinc ">" 2 true false = .first_scan .MATCHGREATERTHAN ∧
    handler__decinc "<" 2 true false = .first_scan .MATCHLESSTHAN := by
  decide

/-- Every location produced by `match_locations` is in bounds and points at
a real match (positive max width). -/
theorem match_locations_mem_bounds :
    ∀ (store : List matches_and_old_values_swath) (si0 a b : Nat),
      (a, b) ∈ match_locations store si0 →
      si0 ≤ a ∧ a - si0 < store.length ∧
      b < (store.getD (a - si0) default).data.length ∧
      0 < flags_to_max_width_in_bytes
          ((store.getD (a - si0) default).data.getD b zero_entry).match_info := by
  intro store
  induction store with
  | nil =>
      intro si0 a b hmem
      simp [match_locations] at hmem
  | cons s rest ih =>
      intro si0 a b hmem
      simp only [match_locations, List.mem_append, List.mem_map] at hmem
      rcases hmem with ⟨ei, hei, heq⟩ | hmem
      · cases heq
        have hsub : si0 - si0 = 0 := Nat.sub_self si0
        rw [hsub]
        simp only [List.getD_cons_zero]
        have hfi := List.mem_filter.mp hei
        refine ⟨Nat.le_refl _, by simp, ?_, ?_⟩
        · exact List.mem_range.mp hfi.1
        · exact of_decide_eq_true hfi.2
      · obtain ⟨h1, h2, h3, h4⟩ := ih (si0 + 1) a b hmem
        have hsub : a - si0 = (a - (si0 + 1)) + 1 := by omega
        rw [hsub]
        simp only [List.getD_cons_succ, List.length_cons]
        exact ⟨by omega, by omega, h3, h4⟩

/-- C5: when `nth_match` resolves the ordinal, `delete` succeeds, zeroes the
`match_info` of exactly the resolved entry (its `old_value` stays) and
decrements `num_matches` by one, leaving every other entry and swath
unchanged; with a bad argument count, an unparsable argument, or an ordinal
that resolves to none, it fails and leaves the session state unchanged. -/
theorem handler__delete_spec (st : DeleteState) (id si ei : Nat)
    (hres : nth_match st.matches_list id = some (si, ei)) :
    (handler__delete st false (some id) = (false, st)) ∧
    (handler__delete st true none = (false, st)) ∧
    (∀ id', nth_match st.matches_list id' = none →
      handler__delete st true (some id') = (false, st)) ∧
    ∃ st', handler__delete st true (some id) = (true, st') ∧
      st'.num_matches = st.num_matches - 1 ∧
      st'.matches_list.length = st.matches_list.length ∧
      (∀ sj, sj ≠ si → st'.matches_list.get? sj = st.matches_list.get? sj) ∧
      ∃ s s', st.matches_list.get? si = some s ∧ st'.matches_list.get? si = some s' ∧
        s'.first_byte_in_child = s.first_byte_in_child ∧
        s'.data.length = s.data.length ∧
        (∀ ej, ej ≠ ei → s'.data.get? ej = s.data.get? ej) ∧
        ∃ e e', s.data.get? ei = some e ∧ s'.data.get? ei = some e' ∧
          e'.match_info = zeroed_flags ∧ e'.old_value = e.old_value := by
  have hmem : (si, ei) ∈ match_locations st.matches_list 0 :=
    List.get?_mem hres
  obtain ⟨-, hsi, hei, -⟩ := match_locations_mem_bounds st.matches_list 0 si ei hmem
  rw [Nat.sub_zero] at hsi hei
  refine ⟨by simp [handler__delete], by simp [handler__delete], ?_, ?_⟩
  · intro id' hnone
    simp [handler__delete, hnone]
  · refine ⟨⟨st.matches_list.set si
        { st.matches_list.getD si default with
          data := (st.matches_list.getD si default).data.set ei
            (zero_match_flags
              ((st.matches_list.getD si default).data.getD ei zero_entry)) },
        st.num_matches - 1⟩, ?_, rfl, List.length_set .., ?_, ?_⟩
    · simp only [handler__delete, hres]
      rfl
    · intro sj hsj
      exact List.get?_set_ne _ _ (fun heq => hsj heq.symm)
    · have hs : st.matches_list.get? si = some (st.matches_list.getD si default) := by
        rw [List.getD_eq_getElem _ _ hsi]
        exact List.get?_eq_get hsi
      have hd : (st.matches_list.getD si default).data.get? ei =
          some ((st.matches_list.getD si default).data.getD ei zero_entry) := by
        rw [List.getD_eq_getElem _ _ hei]
        exact List.get?_eq_get hei
      refine ⟨st.matches_list.getD si default,
        { st.matches_list.getD si default with
          data := (st.matches_list.getD si default).data.set ei
            (zero_match_flags
              ((st.matches_list.getD si default).data.getD ei zero_entry)) },
        hs, List.get?_set_eq_of_lt _ hsi, rfl, List.length_set .., ?_, ?_⟩
      · intro ej hej
        exact List.get?_set_ne _ _ (fun hety => hej hety.symm)
      · exact ⟨(st.matches_list.getD si default).data.getD ei zero_entry,
          zero_match_flags ((st.matches_list.getD si default).data.getD ei zero_entry),
          hd, List.get?_set_eq_of_lt _ hei, rfl, rfl⟩

/-- Witness for C5 at the concrete two-swath store, deleting match 1 (swath
1, entry 0). -/
theorem handler__delete_spec_witness :
    nth_match c5_state.matches_list 1 = some (1, 0) ∧
    ((handler__delete c5_state false (some 1) = (false, c5_state)) ∧
    (handler__delete c5_state true none = (false, c5_state)) ∧
    (∀ id', nth_match c5_state.matches_list id' = none →
      handler__delete c5_state true (some id') = (false, c5_state)) ∧
    ∃ st', handler__delete c5_state true (some 1) = (true, st') ∧
      st'.num_matches = c5_state.num_matches - 1 ∧
      st'.matches_list.length = c5_state.matches_list.length ∧
      (∀ sj, sj ≠ 1 → st'.matches_list.get? sj = c5_state.matches_list.get? sj) ∧
      ∃ s s', c5_state.matches_list.get? 1 = some s ∧
        st'.matches_list.get? 1 = some s' ∧
        s'.first_byte_in_child = s.first_byte_in_child ∧
        s'.data.length = s.data.length ∧
        (∀ ej, ej ≠ 0 → s'.data.get? ej = s.data.get? ej) ∧
        ∃ e e', s.data.get? 0 = some e ∧ s'.data.get? 0 = some e' ∧
          e'.match_info = zeroed_flags ∧ e'.old_value = e.old_value) :=
  ⟨by decide, handler__delete_spec c5_state 1 1 0 (by decide)⟩

/-- The all-clear flag set has no viable width. -/
theorem width_zeroed : flags_to_max_width_in_bytes zeroed_flags = 0 := rfl

/-- A region found by id is in the list and carries that id. -/
theorem find_region_mem :
    ∀ (regions : List region_t) (id : Nat) (r : region_t),
      find_region regions id = some r → r ∈ regions ∧ r.id = id := by
  intro regions
  induction regions with
  | nil => intro id r h; simp [find_region] at h
  | cons r0 rest ih =>
      intro id r h
      by_cases hid : r0.id = id
      · rw [find_region, if_pos hid] at h
        cases h
        exact ⟨List.mem_cons_self .., hid⟩
      · rw [find_region, if_neg hid] at h
        obtain ⟨h1, h2⟩ := ih id r h
        exact ⟨List.mem_cons_of_mem _ h1, h2⟩

/-- Removing a region only drops elements. -/
theorem remove_region_subset :
    ∀ (regions : List region_t) (id : Nat) (r : region_t),
      r ∈ remove_region regions id → r ∈ regions := by
  intro regions
  induction regions with
  | nil => intro id r h; simp [remove_region] at h
  | cons r0 rest ih =>
      intro id r h
      by_cases hid : r0.id = id
      · rw [remove_region, if_pos hid] at h
        exact List.mem_cons_of_mem _ h
      · rw [remove_region, if_neg hid] at h
        rcases List.mem_cons.mp h with h1 | h1
        · exact h1 ▸ List.mem_cons_self ..
        · exact List.mem_cons_of_mem _ (ih id r h1)

/-- The inverted dregion loop, characterised: on success the `keep` list is
the accumulator followed by the regions resolved from the listed ids, in
listed order, all drawn from the regions list. -/
theorem dregion_invert_loop_spec :
    ∀ (ids : List Nat) (regions keep0 rem keep : List region_t),
      dregion_invert_loop ids regions keep0 = some (rem, keep) →
      keep.map region_t.id = keep0.map region_t.id ++ ids ∧
      ∀ r ∈ keep, r ∈ keep0 ∨ r ∈ regions := by
  intro ids
  induction ids with
  | nil =>
      intro regions keep0 rem keep h
      rw [dregion_invert_loop] at h
      cases h
      exact ⟨by simp, fun r hr => Or.inl hr⟩
  | cons id rest ih =>
      intro regions keep0 rem keep h
      rw [dregion_invert_loop] at h
      cases hfind : find_region regions id with
      | none => rw [hfind] at h; cases h
      | some r0 =>
          rw [hfind] at h
          obtain ⟨hmap, hmem⟩ := ih (remove_region regions id) (keep0 ++ [r0])
            rem keep h
          obtain ⟨hr0mem, hr0id⟩ := find_region_mem regions id r0 hfind
          constructor
          · rw [hmap, List.map_append]
            simp [hr0id]
          · intro r hr
            rcases hmem r hr with h1 | h1
            · rcases List.mem_append.mp h1 with h2 | h2
              · exact Or.inl h2
              · simp only [List.mem_singleton] at h2
                exact Or.inr (h2 ▸ hr0mem)
            · exact Or.inr (remove_region_subset regions id r h1)

/-- After the `keep_inside = true` sweep, any entry that still has a viable
width lies inside the region swept against. -/
theorem clear_entries_keep (r : region_t) :
    ∀ (data : List old_value_and_match_info) (addr j : Nat),
      0 < flags_to_max_width_in_bytes
        ((clear_entries r true addr data).getD j zero_entry).match_info →
      in_region r (addr + j) = true := by
  intro data
  induction data with
  | nil =>
      intro addr j h
      simp [clear_entries, List.getD_nil, zero_entry, width_zeroed] at h
  | cons e rest ih =>
      intro addr j h
      cases j with
      | zero =>
          rw [clear_entries, List.getD_cons_zero] at h
          by_cases hin : in_region r addr = true
          · simpa using hin
          · rw [if_neg hin] at h
            simp [zero_match_flags, width_zeroed] at h
      | succ j' =>
          rw [clear_entries, List.getD_cons_succ] at h
          have := ih (addr + 1) j' h
          have harith : addr + 1 + j' = addr + (j' + 1) := by omega
          rwa [harith] at this

/-- A store with zero match count has no entry with a viable width. -/
theorem count_matches_eq_zero_no_flags
    (store : List matches_and_old_values_swath)
    (h : count_matches store = 0) :
    ∀ s ∈ store, ∀ ei,
      flags_to_max_width_in_bytes (s.data.getD ei zero_entry).match_info = 0 := by
  intro s hs ei
  by_cases hlen : ei < s.data.length
  · have hzero : (flagged_indices s.data).length = 0 := by
      have hmem : (flagged_indices s.data).length ∈
          store.map (fun t => (flagged_indices t.data).length) :=
        List.mem_map.mpr ⟨s, hs, rfl⟩
      exact (List.sum_eq_zero_iff.mp h) _ hmem
    have hnil : flagged_indices s.data = [] := List.length_eq_zero.mp hzero
    by_contra hne
    have hpos : 0 < flags_to_max_width_in_bytes
        (s.data.getD ei zero_entry).match_info := by omega
    have : ei ∈ flagged_indices s.data :=
      List.mem_filter.mpr ⟨List.mem_range.mpr hlen, decide_eq_true hpos⟩
    rw [hnil] at this
    simp at this
  · rw [List.getD_eq_default _ _ (by omega)]
    exact width_zeroed

/-- C6: for a `dregion !ids` command where every listed id resolves, the
regions list afterwards consists exactly of the listed regions (same ids, in
listed order, all taken from the old regions list), and the match store is
swept so that only entries whose address lies inside a surviving region keep
a non-zero max width. -/
theorem handler__dregion_invert_spec (regions : List region_t)
    (store : List matches_and_old_values_swath) (num : Int) (ids : List Nat)
    (rem keep : List region_t)
    (hids : ids ≠ [])
    (hloop : dregion_invert_loop ids regions [] = some (rem, keep))
    (hnum : num = (count_matches store : Int)) :
    ∃ store' num',
      handler__dregion_invert regions store num ids =
        some (keep, store', num') ∧
      keep.map region_t.id = ids ∧
      (∀ r ∈ keep, r ∈ regions) ∧
      ∀ s' ∈ store', ∀ ei,
        0 < flags_to_max_width_in_bytes
          (s'.data.getD ei zero_entry).match_info →
        ∃ r ∈ keep, in_region r (s'.first_byte_in_child + ei) = true := by
  obtain ⟨hmap, hmem⟩ := dregion_invert_loop_spec ids regions [] rem keep hloop
  simp only [List.map_nil, List.nil_append] at hmap
  have hkeepmem : ∀ r ∈ keep, r ∈ regions := by
    intro r hr
    rcases hmem r hr with h1 | h1
    · simp at h1
    · exact h1
  have hkeepne : keep ≠ [] := by
    intro hk
    rw [hk] at hmap
    exact hids hmap.symm
  have hheadmem : keep.headD default ∈ keep := by
    cases keep with
    | nil => exact absurd rfl hkeepne
    | cons k ks => exact List.mem_cons_self ..
  have hempty : ids.isEmpty = false := by
    cases ids with
    | nil => exact absurd rfl hids
    | cons i is => rfl
  by_cases hpos : 0 < num
  · refine ⟨(delete_by_region store num (keep.headD default) true).1,
      (delete_by_region store num (keep.headD default) true).2, ?_, hmap,
      hkeepmem, ?_⟩
    · unfold handler__dregion_invert
      rw [hempty, hloop]
      simp [hpos]
    · intro s' hs' ei hflag
      simp only [delete_by_region, List.mem_map] at hs'
      obtain ⟨s, hs, hseq⟩ := hs'
      refine ⟨keep.headD default, hheadmem, ?_⟩
      have hfirst : s'.first_byte_in_child = s.first_byte_in_child := by
        rw [← hseq]
      have hdata : s'.data =
          clear_entries (keep.headD default) true s.first_byte_in_child s.data := by
        rw [← hseq]
      rw [hdata] at hflag
      rw [hfirst]
      exact clear_entries_keep (keep.headD default) s.data
        s.first_byte_in_child ei hflag
  · have hcount : count_matches store = 0 := by omega
    refine ⟨store, num, ?_, hmap, hkeepmem, ?_⟩
    · unfold handler__dregion_invert
      rw [hempty, hloop]
      simp [hpos]
    · intro s' hs' ei hflag
      have := count_matches_eq_zero_no_flags store hcount s' hs' ei
      omega

/-- Witness for C6: `dregion !2,3` over regions `{1,2,3}` with a match in
region 1 and one in region 2. -/
theorem handler__dregion_invert_spec_witness :
    ([2, 3] : List Nat) ≠ [] ∧
    dregion_invert_loop [2, 3] c6_regions [] =
      some ([⟨1, 0, 10⟩], [⟨2, 10, 10⟩, ⟨3, 20, 10⟩]) ∧
    (count_matches c6_store : Int) = (count_matches c6_store : Int) ∧
    ∃ store' num',
      handler__dregion_invert c6_regions c6_store (count_matches c6_store : Int)
          [2, 3] =
        some ([⟨2, 10, 10⟩, ⟨3, 20, 10⟩], store', num') ∧
      ([⟨2, 10, 10⟩, ⟨3, 20, 10⟩] : List region_t).map region_t.id = [2, 3] ∧
      (∀ r ∈ ([⟨2, 10, 10⟩, ⟨3, 20, 10⟩] : List region_t), r ∈ c6_regions) ∧
      ∀ s' ∈ store', ∀ ei,
        0 < flags_to_max_width_in_bytes
          (s'.data.getD ei zero_entry).match_info →
        ∃ r ∈ ([⟨2, 10, 10⟩, ⟨3, 20, 10⟩] : List region_t),
          in_region r (s'.first_byte_in_child + ei) = true :=
  ⟨by decide, by decide, rfl,
    handler__dregion_invert_spec c6_regions c6_store
      (count_matches c6_store : Int) [2, 3] [⟨1, 0, 10⟩]
      [⟨2, 10, 10⟩, ⟨3, 20, 10⟩] (by decide) (by decide) rfl⟩

/-- C7 (code versus claim): the `handler__watch` loop body performs no
cancellation check before (or anywhere within) an iteration — cancellation
can only arrive asynchronously through the signal-driven `longjmp`, where
the claim and the spec mandate a polled check before each iteration. -/
theorem watch_loop_no_cancellation_check :
    WatchAction.check_cancellation ∉ watch_loop_body := by
  decide

/-- Unfolding of `dump_print` on a full main-loop line. -/
theorem dump_print_main (backend with_ascii : Bool) (addr : Nat)
    (buf : List Nat) (i : Nat) (h : i + 16 < buf.length) :
    dump_print backend with_ascii addr buf i =
      (if backend then [] else [DumpTok.addr (addr + i)]) ++
      (List.range 16).map (fun j => DumpTok.hex (buf.getD (i + j) 0 % 256)) ++
      (if with_ascii then
         (List.range 16).map
           (fun j => DumpTok.ascii (printable_or_dot (buf.getD (i + j) 0)))
       else []) ++
      [DumpTok.newline] ++
      dump_print backend with_ascii addr buf (i + 16) := by
  rw [dump_print]
  rw [dif_pos h]

/-- Unfolding of `dump_print` on the final, possibly short line. -/
theorem dump_print_rest (backend with_ascii : Bool) (addr : Nat)
    (buf : List Nat) (i : Nat) (h1 : ¬ i + 16 < buf.length)
    (h2 : i < buf.length) :
    dump_print backend with_ascii addr buf i =
      (if backend then [] else [DumpTok.addr (addr + i)]) ++
      (List.range (buf.length - i)).map
        (fun j => DumpTok.hex (buf.getD (i + j) 0 % 256)) ++
      (if with_ascii then
         List.replicate ((16 - buf.length % 16) % 16) DumpTok.pad ++
         (List.range (buf.length - i)).map
           (fun j => DumpTok.ascii (printable_or_dot (buf.getD (i + j) 0)))
       else []) ++
      [DumpTok.newline] := by
  rw [dump_print]
  rw [dif_neg h1, if_pos h2]

/-- Unfolding of `dump_print` past the end of the buffer. -/
theorem dump_print_done (backend with_ascii : Bool) (addr : Nat)
    (buf : List Nat) (i : Nat) (h : buf.length ≤ i) :
    dump_print backend with_ascii addr buf i = [] := by
  rw [dump_print]
  rw [dif_neg (by omega), if_neg (by omega)]

/-- `chunks16` on the empty list. -/
theorem chunks16_nil : chunks16 [] = [] := by
  rw [chunks16]
  rfl

/-- `chunks16` on a non-empty list. -/
theorem chunks16_cons (l : List Nat) (h : l ≠ []) :
    chunks16 l = l.take 16 :: chunks16 (l.drop 16) := by
  rw [chunks16]
  rw [dif_neg h]

/-- A `take` of a `drop`, written with indexed reads: the segment
`[i, i + n)` of the buffer. -/
theorem drop_take_as_range (buf : List Nat) (i n : Nat)
    (h : i + n ≤ buf.length) :
    (buf.drop i).take n = (List.range n).map (fun j => buf.getD (i + j) 0) := by
  apply List.ext_getElem
  · simp only [List.length_take, List.length_drop, List.length_map,
      List.length_range]
    omega
  · intro k h1 h2
    have hk : k < n := by simpa using h2
    simp only [List.getElem_take, List.getElem_drop, List.getElem_map,
      List.getElem_range]
    rw [List.getD_eq_getElem _ _ (by omega)]

/-- The print loops of `handler__dump`, related to the per-chunk format:
from any 16-aligned offset the emitted tokens are one `dump_line` per
16-byte chunk of the remaining buffer. -/
theorem dump_print_chunks (backend with_ascii : Bool) (addr : Nat)
    (buf : List Nat) :
    ∀ n i, buf.length - i ≤ n → 16 ∣ i →
      dump_print backend with_ascii addr buf i =
        dump_lines_from backend with_ascii (addr + i) (chunks16 (buf.drop i)) := by
  intro n
  induction n with
  | zero =>
      intro i hle hdvd
      have hlen : buf.length ≤ i := by omega
      rw [dump_print_done backend with_ascii addr buf i hlen,
        List.drop_eq_nil_of_le hlen, chunks16_nil]
      rfl
  | succ n ih =>
      intro i hle hdvd
      by_cases h16 : i + 16 < buf.length
      · have hne : buf.drop i ≠ [] := by
          intro hx
          have := congrArg List.length hx
          simp only [List.length_drop, List.length_nil] at this
          omega
        rw [dump_print_main backend with_ascii addr buf i h16,
          chunks16_cons _ hne, List.drop_drop]
        rw [dump_lines_from]
        have hchunk : (buf.drop i).take 16 =
            (List.range 16).map (fun j => buf.getD (i + j) 0) :=
          drop_take_as_range buf i 16 (by omega)
        have hchlen : ((buf.drop i).take 16).length = 16 := by
          simp only [List.length_take, List.length_drop]
          omega
        have harg1 : buf.length - (i + 16) ≤ n := by omega
        have harg2 : 16 ∣ i + 16 := by
          obtain ⟨c, hc⟩ := hdvd
          exact ⟨c + 1, by omega⟩
        have hih := ih (i + 16) harg1 harg2
        rw [hih]
        have haddr : addr + i + 16 = addr + (i + 16) := by omega
        rw [haddr]
        unfold dump_line
        rw [hchlen, hchunk]
        simp only [List.map_map, Function.comp]
        have hpad : (16 - 16 % 16) % 16 = 0 := by norm_num
        rw [hpad]
        simp only [List.replicate_zero, List.nil_append, List.append_assoc]
        rfl
      · by_cases hi : i < buf.length
        · have hne : buf.drop i ≠ [] := by
            intro hx
            have := congrArg List.length hx
            simp only [List.length_drop, List.length_nil] at this
            omega
          rw [dump_print_rest backend with_ascii addr buf i h16 hi,
            chunks16_cons _ hne, List.drop_drop]
          have hdrop2 : buf.drop (i + 16) = [] :=
            List.drop_eq_nil_of_le (by omega)
          rw [hdrop2, chunks16_nil]
          rw [dump_lines_from, dump_lines_from, List.append_nil]
          have htake : (buf.drop i).take 16 = buf.drop i := by
            apply List.take_of_length_le
            simp only [List.length_drop]
            omega
          rw [htake]
          have hchunk : buf.drop i =
              (List.range (buf.length - i)).map (fun j => buf.getD (i + j) 0) := by
            have h2 := drop_take_as_range buf i (buf.length - i) (by omega)
            have h3 : (buf.drop i).take (buf.length - i) = buf.drop i := by
              apply List.take_of_length_le
              simp
            rwa [h3] at h2
          unfold dump_line
          have hchlen : (buf.drop i).length = buf.length - i := by
            simp only [List.length_drop]
          rw [hchlen]
          have hmod : (buf.length - i) % 16 = buf.length % 16 := by omega
          rw [hmod]
          conv_rhs => rw [hchunk]
          simp only [List.map_map, Function.comp, List.append_assoc]
          rfl
        · have hlen : buf.length ≤ i := by omega
          rw [dump_print_done backend with_ascii addr buf i hlen,
            List.drop_eq_nil_of_le hlen, chunks16_nil]
          rfl

/-- C8: the screen output of a successful dump is exactly one line per
16-byte chunk of the buffer: the bytes in `"%02X "` hex (after the
`unsigned char` cast), a trailing printable-ASCII panel (non-printables as
'.', aligned with fillers on the short last line) appended iff
`dump_with_ascii` is set, and a leading line address iff the session is not
in backend mode, with line addresses advancing by 16. -/
theorem handler__dump_screen_format (backend with_ascii : Bool) (addr : Nat)
    (buf : List Nat) :
    handler__dump_screen backend with_ascii addr buf =
      dump_lines_from backend with_ascii addr (chunks16 buf) := by
  have := dump_print_chunks backend with_ascii addr buf buf.length 0
    (by omega) (by omega)
  simpa [handler__dump_screen] using this

end Scanmem
